import Mathlib

/-
Shallow embedding of the Chip-8 emulator core from src/lib.rs.

Machine bytes are modelled as Nat with explicit `% 256` where the source
wraps 8-bit arithmetic, and `% 65536` where the source wraps 16-bit
arithmetic.  Fallible operations (array indexing that can panic, popping
an empty call stack) return Option, with `none` standing for an aborted
execution.  The wall clock and the thread-local random generator are
modelled as explicit external inputs (`tick`, `rand`) to the step
function, and the single pressed key as an `Option Nat` input.
-/

set_option maxHeartbeats 1000000

set_option maxRecDepth 100000

/-- Screen width in pixels (display.rs `SCREEN_WIDTH`). -/
def SCREEN_WIDTH : Nat := 64

/-- Screen height in pixels (display.rs `SCREEN_HEIGHT`). -/
def SCREEN_HEIGHT : Nat := 32

/-- Address of the font inside emulator memory (lib.rs `FONT_ADDRESS`). -/
def FONT_ADDRESS : Nat := 0x050

/-- The default font, 16 glyphs of 5 bytes each (lib.rs `DEFAULT_FONT`). -/
def DEFAULT_FONT : List Nat := [
  0xF0, 0x90, 0x90, 0x90, 0xF0,
  0x20, 0x60, 0x20, 0x20, 0x70,
  0xF0, 0x10, 0xF0, 0x80, 0xF0,
  0xF0, 0x10, 0xF0, 0x10, 0xF0,
  0x90, 0x90, 0xF0, 0x10, 0x10,
  0xF0, 0x80, 0xF0, 0x10, 0xF0,
  0xF0, 0x80, 0xF0, 0x90, 0xF0,
  0xF0, 0x10, 0x20, 0x40, 0x40,
  0xF0, 0x90, 0xF0, 0x90, 0xF0,
  0xF0, 0x90, 0xF0, 0x10, 0xF0,
  0xF0, 0x90, 0xF0, 0x90, 0x90,
  0xE0, 0x90, 0xE0, 0x90, 0xE0,
  0xF0, 0x80, 0x80, 0x80, 0xF0,
  0xE0, 0x90, 0x90, 0x90, 0xE0,
  0xF0, 0x80, 0xF0, 0x80, 0xF0,
  0xF0, 0x80, 0xF0, 0x80, 0x80]

/-- Emulator configuration (lib.rs `ChipEmulatorConfig`). -/
structure ChipEmulatorConfig where
  font : List Nat
  instruction_per_second : Nat
  copy_y_on_shift : Bool
  offset_jump_vx : Bool

/-- The `Default` instance of the configuration (lib.rs `impl Default`). -/
def ChipEmulatorConfig.default : ChipEmulatorConfig :=
  { font := DEFAULT_FONT
    instruction_per_second := 700
    copy_y_on_shift := false
    offset_jump_vx := false }

/-- A decoded instruction (lib.rs `ChipInstruction`): the two raw bytes, the
opcode class nibble and the three parameter nibbles. -/
structure ChipInstruction where
  raw0 : Nat
  raw1 : Nat
  op_code : Nat
  p0 : Nat
  p1 : Nat
  p2 : Nat

/-- Decode two instruction bytes (lib.rs `ChipInstruction::new`):
`op_code = b0 >> 4`, parameters `[b0 & 0xF, b1 >> 4, b1 & 0xF]`. -/
def ChipInstruction.new (b0 b1 : Nat) : ChipInstruction :=
  { raw0 := b0
    raw1 := b1
    op_code := b0 / 16
    p0 := b0 % 16
    p1 := b1 / 16
    p2 := b1 % 16 }

/-- The emulator state (lib.rs `ChipEmulator`).  `display_updated` is
modelled from the spec: the one-shot "changed since last read" flag of the
display sink; lib.rs instead pushes the buffer to a display trait object at
the same program points, and the flag-returning accessor
`ChipEmulator::get_video_buffer` referenced by main.rs is not under src/. -/
structure ChipState where
  memory : Nat → Nat
  video_buffer : Nat → Nat
  registers : Nat → Nat
  program_counter : Nat
  index_pointer : Nat
  stack : List Nat
  delay_timer : Nat
  sound_timer : Nat
  key : Option Nat
  display_updated : Bool

/-- ALU dispatch (lib.rs `ChipEmulator::alu`), selected by the low parameter
nibble.  In the shift arms the optional copy of register Y into register X
happens before the shifted-out bit is captured, exactly as in the source. -/
def ChipEmulator.alu (cfg : ChipEmulatorConfig) (p0 p1 p2 : Nat) (s : ChipState) : ChipState :=
  if p2 = 0 then
    { s with registers := Function.update s.registers p0 (s.registers p1) }
  else if p2 = 1 then
    { s with registers := Function.update s.registers p0 (s.registers p0 ||| s.registers p1) }
  else if p2 = 2 then
    { s with registers := Function.update s.registers p0 (s.registers p0 &&& s.registers p1) }
  else if p2 = 3 then
    { s with registers := Function.update s.registers p0 (s.registers p0 ^^^ s.registers p1) }
  else if p2 = 4 then
    let r1 := Function.update s.registers p0 ((s.registers p0 + s.registers p1) % 256)
    let flag := if 256 ≤ s.registers p0 + s.registers p1 then 1 else 0
    { s with registers := Function.update r1 15 flag }
  else if p2 = 5 then
    let r1 := Function.update s.registers p0 ((s.registers p0 + 256 - s.registers p1) % 256)
    let flag := if s.registers p0 < s.registers p1 then 0 else 1
    { s with registers := Function.update r1 15 flag }
  else if p2 = 7 then
    let r1 := Function.update s.registers p0 ((s.registers p1 + 256 - s.registers p0) % 256)
    let flag := if s.registers p1 < s.registers p0 then 0 else 1
    { s with registers := Function.update r1 15 flag }
  else if p2 = 6 then
    let value_x := if cfg.copy_y_on_shift then s.registers p1 else s.registers p0
    let r1 := Function.update s.registers p0 (value_x / 2)
    { s with registers := Function.update r1 15 (value_x % 2) }
  else if p2 = 14 then
    let value_x := if cfg.copy_y_on_shift then s.registers p1 else s.registers p0
    let r1 := Function.update s.registers p0 (value_x * 2 % 256)
    { s with registers := Function.update r1 15 (value_x / 128) }
  else
    s

/-- The sprite pixel mask of bit `i` of sprite row byte `b`
(lib.rs `(sprite_row << bit_index) & 0b10000000` on a u8). -/
def spritePixel (b i : Nat) : Nat := b * 2 ^ i % 256 &&& 128

/-- One iteration of the inner bit loop of lib.rs `ChipEmulator::draw`:
update the pixel of row `y` at column `(sx + bit) % 64` against sprite row
byte `b`, setting the flag register on a collision. -/
def drawStepBit (sx y b bit : Nat) (s : ChipState) : ChipState :=
  let x := (sx + bit) % 64
  let pixel := s.video_buffer (SCREEN_WIDTH * y + x)
  if spritePixel b bit ≠ 0 ∧ pixel ≠ 0 then
    { s with registers := Function.update s.registers 15 1,
             video_buffer := Function.update s.video_buffer (SCREEN_WIDTH * y + x) 0 }
  else if spritePixel b bit ≠ 0 ∧ pixel = 0 then
    { s with video_buffer := Function.update s.video_buffer (SCREEN_WIDTH * y + x) 1 }
  else
    s

/-- The inner loop `for bit_index in 0..n` of lib.rs `ChipEmulator::draw`
(the source runs it with `n = 8`). -/
def drawBits (sx y b : Nat) : Nat → ChipState → ChipState
  | 0, s => s
  | n + 1, s => drawStepBit sx y b n (drawBits sx y b n s)

/-- The outer row loop of lib.rs `ChipEmulator::draw`: rows are drawn in
order and the loop breaks as soon as the target row reaches row 32. -/
def drawRows (sx sy : Nat) : List Nat → Nat → ChipState → ChipState
  | [], _, s => s
  | b :: rest, row, s =>
    if 32 ≤ sy + row then s
    else drawRows sx sy rest (row + 1) (drawBits sx (sy + row) b 8 s)

/-- Sprite draw (lib.rs `ChipEmulator::draw`).  The start position is taken
from registers `p0` and `p1` modulo 64 and 32; the sprite slice
`memory[ip..ip+rows]` panics (modelled as `none`) when it reaches past the
4096-byte memory; the flag register is reset to 0 before the row loop; the
display receives the buffer after the loop. -/
def ChipEmulator.draw (p0 p1 p2 : Nat) (s : ChipState) : Option ChipState :=
  let rows := p2
  let sprite_x := s.registers p0 % 64
  let sprite_y := s.registers p1 % 32
  if s.index_pointer + rows ≤ 4096 then
    let sprite := (List.range rows).map fun i => s.memory (s.index_pointer + i)
    let s1 := { s with registers := Function.update s.registers 15 0 }
    let s2 := drawRows sprite_x sprite_y sprite 0 s1
    some { s2 with display_updated := true }
  else
    none

/-- The loop of the FX55 store-registers instruction: write registers
`i, i+1, ...` (`cnt` many) to memory at `index_pointer + i`; an
out-of-bounds memory index panics (modelled as `none`). -/
def storeRegsFrom : Nat → Nat → ChipState → Option ChipState
  | _, 0, s => some s
  | i, cnt + 1, s =>
    if s.index_pointer + i < 4096 then
      storeRegsFrom (i + 1) cnt
        { s with memory := Function.update s.memory (s.index_pointer + i) (s.registers i) }
    else
      none

/-- The loop of the FX65 load-registers instruction: read memory at
`index_pointer + i` into registers `i, i+1, ...` (`cnt` many); an
out-of-bounds memory index panics (modelled as `none`). -/
def loadRegsFrom : Nat → Nat → ChipState → Option ChipState
  | _, 0, s => some s
  | i, cnt + 1, s =>
    if s.index_pointer + i < 4096 then
      loadRegsFrom (i + 1) cnt
        { s with registers := Function.update s.registers i (s.memory (s.index_pointer + i)) }
    else
      none

/-- Opcode dispatch (lib.rs `ChipEmulator::decode_execute`), an if-chain in
the source's arm order.  `rand` is the byte drawn from `thread_rng` for the
0xCXNN instruction.  `none` models a panic (popping an empty stack on
return, or an out-of-bounds memory index). -/
def ChipEmulator.decode_execute (cfg : ChipEmulatorConfig) (rand : Nat)
    (i : ChipInstruction) (s : ChipState) : Option ChipState :=
  if i.op_code = 0 ∧ i.p0 = 0 ∧ i.p1 = 14 ∧ i.p2 = 0 then
    some { s with video_buffer := fun _ => 0, display_updated := true }
  else if i.op_code = 1 then
    some { s with program_counter := 256 * i.p0 + i.raw1 }
  else if i.op_code = 2 then
    some { s with stack := s.program_counter :: s.stack,
                  program_counter := 256 * i.p0 + i.raw1 }
  else if i.op_code = 11 then
    some { s with program_counter :=
      256 * i.p0 + i.raw1 +
        (if cfg.offset_jump_vx then s.registers i.p0 else s.registers 0) }
  else if i.op_code = 0 ∧ i.p0 = 0 ∧ i.p1 = 14 ∧ i.p2 = 14 then
    match s.stack with
    | [] => none
    | a :: rest => some { s with program_counter := a, stack := rest }
  else if i.op_code = 3 then
    some (if s.registers i.p0 = i.raw1
          then { s with program_counter := (s.program_counter + 2) % 65536 }
          else s)
  else if i.op_code = 4 then
    some (if s.registers i.p0 ≠ i.raw1
          then { s with program_counter := (s.program_counter + 2) % 65536 }
          else s)
  else if i.op_code = 5 ∧ i.p2 = 0 then
    some (if s.registers i.p0 = s.registers i.p1
          then { s with program_counter := (s.program_counter + 2) % 65536 }
          else s)
  else if i.op_code = 9 ∧ i.p2 = 0 then
    some (if s.registers i.p0 ≠ s.registers i.p1
          then { s with program_counter := (s.program_counter + 2) % 65536 }
          else s)
  else if i.op_code = 8 then
    some (ChipEmulator.alu cfg i.p0 i.p1 i.p2 s)
  else if i.op_code = 6 then
    some { s with registers := Function.update s.registers i.p0 i.raw1 }
  else if i.op_code = 7 then
    some { s with registers :=
      Function.update s.registers i.p0 ((i.raw1 + s.registers i.p0) % 256) }
  else if i.op_code = 10 then
    some { s with index_pointer := 256 * i.p0 + i.raw1 }
  else if i.op_code = 12 then
    some { s with registers := Function.update s.registers i.p0 (rand % 256 &&& i.raw1) }
  else if i.op_code = 15 ∧ i.p1 = 0 ∧ i.p2 = 7 then
    some { s with registers := Function.update s.registers i.p0 s.delay_timer }
  else if i.op_code = 15 ∧ i.p1 = 1 ∧ i.p2 = 5 then
    some { s with delay_timer := s.registers i.p0 }
  else if i.op_code = 15 ∧ i.p1 = 1 ∧ i.p2 = 8 then
    some { s with sound_timer := s.registers i.p0 }
  else if i.op_code = 15 ∧ i.p1 = 1 ∧ i.p2 = 14 then
    let ip := (s.index_pointer + s.registers i.p0) % 65536
    let flag := if 4096 ≤ ip then 1 else 0
    some { s with index_pointer := ip, registers := Function.update s.registers 15 flag }
  else if i.op_code = 15 ∧ i.p1 = 5 ∧ i.p2 = 5 then
    storeRegsFrom 0 (i.p0 + 1) s
  else if i.op_code = 15 ∧ i.p1 = 6 ∧ i.p2 = 5 then
    loadRegsFrom 0 (i.p0 + 1) s
  else if i.op_code = 15 ∧ i.p1 = 0 ∧ i.p2 = 10 then
    some (match s.key with
          | some k => { s with registers := Function.update s.registers i.p0 k }
          | none => { s with program_counter := (s.program_counter + 65534) % 65536 })
  else if i.op_code = 14 ∧ i.p1 = 9 ∧ i.p2 = 14 then
    some (match s.key with
          | some k =>
            if s.registers i.p0 = k
            then { s with program_counter := (s.program_counter + 2) % 65536 }
            else s
          | none => s)
  else if i.op_code = 14 ∧ i.p1 = 10 ∧ i.p2 = 1 then
    some (match s.key with
          | some k =>
            if s.registers i.p0 ≠ k
            then { s with program_counter := (s.program_counter + 2) % 65536 }
            else s
          | none => { s with program_counter := (s.program_counter + 2) % 65536 })
  else if i.op_code = 15 ∧ i.p1 = 2 ∧ i.p2 = 9 then
    some { s with index_pointer := FONT_ADDRESS + (s.registers i.p0 % 16) * 5 }
  else if i.op_code = 15 ∧ i.p1 = 3 ∧ i.p2 = 3 then
    if s.index_pointer + 2 < 4096 then
      let m1 := Function.update s.memory s.index_pointer (s.registers i.p0 / 100)
      let m2 := Function.update m1 (s.index_pointer + 1) (s.registers i.p0 / 10 % 10)
      let m3 := Function.update m2 (s.index_pointer + 2) (s.registers i.p0 % 10)
      some { s with memory := m3 }
    else
      none
  else if i.op_code = 13 then
    ChipEmulator.draw i.p0 i.p1 i.p2 s
  else
    some s

/-- Timer update (lib.rs `ChipEmulator::update_timer`): `tick` abstracts the
wall-clock test "at least 1/60 s elapsed since the last timer update". -/
def ChipEmulator.update_timer (tick : Bool) (s : ChipState) : ChipState :=
  if tick then
    { s with
      sound_timer := if 0 < s.sound_timer then s.sound_timer - 1 else s.sound_timer,
      delay_timer := if 0 < s.delay_timer then s.delay_timer - 1 else s.delay_timer }
  else
    s

/-- Instruction fetch (lib.rs `ChipEmulator::fetch`): read the two bytes at
the program counter (an out-of-bounds index panics, modelled as `none`) and
advance the program counter by 2. -/
def ChipEmulator.fetch (s : ChipState) : Option (ChipInstruction × ChipState) :=
  if s.program_counter + 1 < 4096 then
    some (ChipInstruction.new (s.memory s.program_counter) (s.memory (s.program_counter + 1)),
          { s with program_counter := (s.program_counter + 2) % 65536 })
  else
    none

/-- One emulator step (lib.rs `ChipEmulator::step`): update the timers, latch
the key read from the keypad, then fetch, decode and execute. -/
def ChipEmulator.step (cfg : ChipEmulatorConfig) (tick : Bool) (key : Option Nat)
    (rand : Nat) (s : ChipState) : Option ChipState :=
  let s1 := ChipEmulator.update_timer tick s
  let s2 := { s1 with key := key }
  match ChipEmulator.fetch s2 with
  | none => none
  | some (i, s3) => ChipEmulator.decode_execute cfg rand i s3

/-- Emulator initialization (lib.rs `ChipEmulator::initialize`): zeroed
memory, registers and framebuffer, program counter 0x200, empty stack, and
the configured font copied to `FONT_ADDRESS`. -/
def ChipEmulator.initialize_emulator (cfg : ChipEmulatorConfig) : ChipState :=
  { memory := fun i =>
      if FONT_ADDRESS ≤ i ∧ i < FONT_ADDRESS + cfg.font.length
      then cfg.font.getD (i - FONT_ADDRESS) 0
      else 0
    video_buffer := fun _ => 0
    registers := fun _ => 0
    program_counter := 0x200
    index_pointer := 0
    stack := []
    delay_timer := 0
    sound_timer := 0
    key := none
    display_updated := false }

/-- ROM load (lib.rs `ChipEmulator::load_rom`, with the file contents
abstracted to a byte list): copy the bytes to memory starting at 0x200 and
reset the program counter to 0x200. -/
def ChipEmulator.load_rom (rom : List Nat) (s : ChipState) : ChipState :=
  { s with
    memory := fun i =>
      if 0x200 ≤ i ∧ i < 0x200 + rom.length then rom.getD (i - 0x200) 0 else s.memory i,
    program_counter := 0x200 }

/-- Modelled from the spec: `ChipEmulator::get_video_buffer` is called by
main.rs but its definition is not under src/.  The spec says the core
exposes the framebuffer as 2048 one-byte pixel values together with a
one-shot "changed since last read" flag that is cleared by the read. -/
def ChipEmulator.get_video_buffer (s : ChipState) : ((Nat → Nat) × Bool) × ChipState :=
  ((fun i => s.video_buffer i, s.display_updated), { s with display_updated := false })

/-- The dispatch conditions of the arms of lib.rs `decode_execute`, in
source order; an instruction matching none of them falls to the
catch-all "unrecognized instruction" arm. -/
def instructionRecognized (i : ChipInstruction) : Prop :=
  (i.op_code = 0 ∧ i.p0 = 0 ∧ i.p1 = 14 ∧ i.p2 = 0) ∨
  i.op_code = 1 ∨
  i.op_code = 2 ∨
  i.op_code = 11 ∨
  (i.op_code = 0 ∧ i.p0 = 0 ∧ i.p1 = 14 ∧ i.p2 = 14) ∨
  i.op_code = 3 ∨
  i.op_code = 4 ∨
  (i.op_code = 5 ∧ i.p2 = 0) ∨
  (i.op_code = 9 ∧ i.p2 = 0) ∨
  i.op_code = 8 ∨
  i.op_code = 6 ∨
  i.op_code = 7 ∨
  i.op_code = 10 ∨
  i.op_code = 12 ∨
  (i.op_code = 15 ∧ i.p1 = 0 ∧ i.p2 = 7) ∨
  (i.op_code = 15 ∧ i.p1 = 1 ∧ i.p2 = 5) ∨
  (i.op_code = 15 ∧ i.p1 = 1 ∧ i.p2 = 8) ∨
  (i.op_code = 15 ∧ i.p1 = 1 ∧ i.p2 = 14) ∨
  (i.op_code = 15 ∧ i.p1 = 5 ∧ i.p2 = 5) ∨
  (i.op_code = 15 ∧ i.p1 = 6 ∧ i.p2 = 5) ∨
  (i.op_code = 15 ∧ i.p1 = 0 ∧ i.p2 = 10) ∨
  (i.op_code = 14 ∧ i.p1 = 9 ∧ i.p2 = 14) ∨
  (i.op_code = 14 ∧ i.p1 = 10 ∧ i.p2 = 1) ∨
  (i.op_code = 15 ∧ i.p1 = 2 ∧ i.p2 = 9) ∨
  (i.op_code = 15 ∧ i.p1 = 3 ∧ i.p2 = 3) ∨
  i.op_code = 13

/-- The sub-selector values handled by the arms of lib.rs `alu`; any other
value falls to the catch-all "unrecognized alu instruction" arm. -/
def aluRecognized (p2 : Nat) : Prop :=
  p2 = 0 ∨ p2 = 1 ∨ p2 = 2 ∨ p2 = 3 ∨ p2 = 4 ∨ p2 = 5 ∨ p2 = 7 ∨ p2 = 6 ∨ p2 = 14

/-- One observable step with the latched key fixed but the wall clock and
the random source left to the environment, as in lib.rs where `step` reads
`Instant::now` and `thread_rng` internally. -/
def StepRel (cfg : ChipEmulatorConfig) (key : Option Nat) (s s' : ChipState) : Prop :=
  ∃ tick rand, rand < 256 ∧ ChipEmulator.step cfg tick key rand s = some s'

/-- An all-zero emulator state with the program counter at 0x200, used as a
concrete evaluation point. -/
def zeroState : ChipState :=
  { memory := fun _ => 0
    video_buffer := fun _ => 0
    registers := fun _ => 0
    program_counter := 0x200
    index_pointer := 0
    stack := []
    delay_timer := 0
    sound_timer := 0
    key := none
    display_updated := false }

/-- Witness for C2 at a concrete state: registers 5 = 5 and 6 = 3. -/
def subState : ChipState :=
  { zeroState with registers := fun j => if j = 5 then 5 else if j = 6 then 3 else 0 }

/-- The decoded form of the 0x00EE return instruction. -/
def retInstruction : ChipInstruction := ChipInstruction.new 0x00 0xEE

/-- A state whose call stack holds the single return address 5. -/
def stackState : ChipState := { zeroState with stack := [5] }

/-- The decoded form of the FX0A await-key instruction for register `x`. -/
def awaitInstruction (x : Nat) : ChipInstruction := ChipInstruction.new (16 * 15 + x) 0x0A

/-- A state with key 7 latched. -/
def keyState : ChipState := { zeroState with key := some 7 }

/-- A state with the await-key instruction F10A stored at address 0x200. -/
def awaitState : ChipState :=
  { zeroState with memory := fun i => if i = 0x200 then 241 else if i = 0x201 then 10 else 0 }

/-- Deciding whether an instruction matches some dispatch arm. -/
instance (i : ChipInstruction) : Decidable (instructionRecognized i) := by
  unfold instructionRecognized
  infer_instance

/-- Deciding whether an ALU sub-selector matches some arm. -/
instance (p2 : Nat) : Decidable (aluRecognized p2) := by
  unfold aluRecognized
  infer_instance

/-- A state with the unrecognized instruction 0xE000 stored at 0x200. -/
def unrecState : ChipState :=
  { zeroState with memory := fun i => if i = 0x200 then 0xE0 else 0 }

/-- A state with the random instruction 0xC0FF (register 0, mask 0xFF)
stored at address 0x200. -/
def randState : ChipState :=
  { zeroState with memory := fun i => if i = 0x200 then 0xC0 else if i = 0x201 then 0xFF else 0 }

/-- The successor of `randState` when the sampled random byte is 255. -/
def randResultA : ChipState :=
  (ChipEmulator.step ChipEmulatorConfig.default false none 255 randState).getD zeroState

/-- The successor of `randState` when the sampled random byte is 0. -/
def randResultB : ChipState :=
  (ChipEmulator.step ChipEmulatorConfig.default false none 0 randState).getD zeroState

/-- The emulator state after the timer update, the key latch and the fetch
of one step, before the instruction executes. -/
def afterFetch (tick : Bool) (key : Option Nat) (s : ChipState) : ChipState :=
  let s1 := ChipEmulator.update_timer tick s
  { s1 with key := key, program_counter := (s.program_counter + 2) % 65536 }

/-- The successor state of the clear-screen scenario of C9. -/
def clearResult (tick : Bool) (key : Option Nat) : ChipState :=
  let s0 := ChipEmulator.load_rom [0x00, 0xE0] (ChipEmulator.initialize_emulator ChipEmulatorConfig.default)
  let s1 := ChipEmulator.update_timer tick s0
  { s1 with key := key, program_counter := 514, video_buffer := fun _ => 0, display_updated := true }

/-- The sprite bit of row byte `b` at bit index `c`, as a 0/1 pixel value. -/
def spriteBit (b c : Nat) : Nat := if spritePixel b c = 0 then 0 else 1

/-- Collision test of a single bit of a sprite row against a framebuffer. -/
def bitCollision (sx y b : Nat) (v : Nat → Nat) (c : Nat) : Bool :=
  (spritePixel b c != 0) && (v (64 * y + (sx + c) % 64) != 0)

/-- Collision test of the first `n` bits of a sprite row. -/
def rowCollision (sx y b : Nat) (v : Nat → Nat) : Nat → Bool
  | 0 => false
  | n + 1 => rowCollision sx y b v n || bitCollision sx y b v n

/-- Collision test of a whole sprite drawn at `(sx, sy)` from row `r` on,
stopping at row 32 exactly as the draw loop does. -/
def spriteCollision (sx sy : Nat) (v : Nat → Nat) : List Nat → Nat → Bool
  | [], _ => false
  | b :: rest, row =>
    if 32 ≤ sy + row then false
    else rowCollision sx (sy + row) b v 8 || spriteCollision sx sy v rest (row + 1)

/-- A state with the one-row sprite 0x80 at memory address 0 (the index
pointer). -/
def spriteState : ChipState :=
  { zeroState with memory := fun i => if i = 0 then 0x80 else 0 }

/-- The state after drawing the one-row sprite once from `spriteState`. -/
def spriteState1 : ChipState := (ChipEmulator.draw 0 1 1 spriteState).getD zeroState

/-- The state after drawing the one-row sprite twice from `spriteState`. -/
def spriteState2 : ChipState := (ChipEmulator.draw 0 1 1 spriteState1).getD zeroState

/-- Field values of a decoded instruction whose first byte is `16 * k + x`
with `x < 16`. -/
theorem ChipInstruction.new_eq (k x b1 : Nat) (hx : x < 16) :
    ChipInstruction.new (16 * k + x) b1 =
      { raw0 := 16 * k + x, raw1 := b1, op_code := k, p0 := x,
        p1 := b1 / 16, p2 := b1 % 16 } := by
  unfold ChipInstruction.new
  simp only [ChipInstruction.mk.injEq, true_and, and_true]
  omega

/-- C2: executing the ALU subtract (sub-selector 5, X−Y) writes the wrapped
difference into register X and sets the flag register V15 to 1 iff the
pre-operation value of register X is at least that of register Y; the
reverse subtract (sub-selector 7, Y−X) symmetrically sets the flag to 1 iff
register Y is at least register X. -/
theorem C2_alu_sub_flag (cfg : ChipEmulatorConfig) (p0 p1 : Nat) (s : ChipState)
    (hx : s.registers p0 < 256) (hy : s.registers p1 < 256) :
    (p0 ≠ 15 →
      (ChipEmulator.alu cfg p0 p1 5 s).registers p0 =
        (s.registers p0 + 256 - s.registers p1) % 256) ∧
    ((ChipEmulator.alu cfg p0 p1 5 s).registers 15 = 1 ↔ s.registers p1 ≤ s.registers p0) ∧
    (p0 ≠ 15 →
      (ChipEmulator.alu cfg p0 p1 7 s).registers p0 =
        (s.registers p1 + 256 - s.registers p0) % 256) ∧
    ((ChipEmulator.alu cfg p0 p1 7 s).registers 15 = 1 ↔ s.registers p0 ≤ s.registers p1) := by
  refine ⟨?_, ?_, ?_, ?_⟩
  · intro h15
    norm_num [ChipEmulator.alu]
    rw [Function.update_noteq h15, Function.update_same]
  · norm_num [ChipEmulator.alu]
  · intro h15
    norm_num [ChipEmulator.alu]
    rw [Function.update_noteq h15, Function.update_same]
  · norm_num [ChipEmulator.alu]

theorem C2_alu_sub_flag_witness :
    subState.registers 5 < 256 ∧ subState.registers 6 < 256 ∧
    ((5 : Nat) ≠ 15 →
      (ChipEmulator.alu ChipEmulatorConfig.default 5 6 5 subState).registers 5 =
        (subState.registers 5 + 256 - subState.registers 6) % 256) ∧
    ((ChipEmulator.alu ChipEmulatorConfig.default 5 6 5 subState).registers 15 = 1 ↔
      subState.registers 6 ≤ subState.registers 5) :=
  ⟨by decide, by decide,
   (C2_alu_sub_flag ChipEmulatorConfig.default 5 6 subState (by decide) (by decide)).1,
   (C2_alu_sub_flag ChipEmulatorConfig.default 5 6 subState (by decide) (by decide)).2.1⟩

/-- C3: the return instruction with a non-empty call stack sets the program
counter to the popped address and shrinks the stack by one; with an empty
call stack it is fatal (`none`, the modelled panic), with no successor
state. -/
theorem C3_return (cfg : ChipEmulatorConfig) (rand : Nat) (s : ChipState) :
    (∀ a rest, s.stack = a :: rest →
      ChipEmulator.decode_execute cfg rand retInstruction s =
        some { s with program_counter := a, stack := rest }) ∧
    (s.stack = [] →
      ChipEmulator.decode_execute cfg rand retInstruction s = none) := by
  constructor
  · intro a rest h
    norm_num [ChipEmulator.decode_execute, retInstruction, ChipInstruction.new, h]
  · intro h
    norm_num [ChipEmulator.decode_execute, retInstruction, ChipInstruction.new, h]

theorem C3_return_witness :
    ChipEmulator.decode_execute ChipEmulatorConfig.default 0 retInstruction stackState =
      some { stackState with program_counter := 5, stack := [] } ∧
    ChipEmulator.decode_execute ChipEmulatorConfig.default 0 retInstruction zeroState = none :=
  ⟨(C3_return ChipEmulatorConfig.default 0 stackState).1 5 [] rfl,
   (C3_return ChipEmulatorConfig.default 0 zeroState).2 rfl⟩

/-- C6: add-imm (0x7XNN) sets register X to `(old + b) mod 256` and touches
nothing else: every other register (hence the flag register V15 when
X ≠ 15), the memory, the index register, the stack, the program counter and
the timers are unchanged. -/
theorem C6_add_imm (cfg : ChipEmulatorConfig) (rand : Nat) (x b : Nat)
    (hx : x < 16) (hb : b < 256) (s : ChipState) :
    ∃ s', ChipEmulator.decode_execute cfg rand (ChipInstruction.new (16 * 7 + x) b) s = some s' ∧
      s'.registers x = (s.registers x + b) % 256 ∧
      (∀ j, j ≠ x → s'.registers j = s.registers j) ∧
      s'.memory = s.memory ∧
      s'.index_pointer = s.index_pointer ∧
      s'.stack = s.stack ∧
      s'.program_counter = s.program_counter ∧
      s'.delay_timer = s.delay_timer ∧
      s'.sound_timer = s.sound_timer := by
  rw [ChipInstruction.new_eq 7 x b hx]
  refine ⟨{ s with registers := Function.update s.registers x ((b + s.registers x) % 256) },
    ?_, ?_, ?_, rfl, rfl, rfl, rfl, rfl, rfl⟩
  · norm_num [ChipEmulator.decode_execute]
  · show Function.update s.registers x ((b + s.registers x) % 256) x = _
    rw [Function.update_same, Nat.add_comm]
  · intro j hj
    show Function.update s.registers x ((b + s.registers x) % 256) j = _
    rw [Function.update_noteq hj]

theorem C6_add_imm_witness :
    (3 : Nat) < 16 ∧ (200 : Nat) < 256 ∧
    ∃ s', ChipEmulator.decode_execute ChipEmulatorConfig.default 0
        (ChipInstruction.new (16 * 7 + 3) 200) zeroState = some s' ∧
      s'.registers 3 = (zeroState.registers 3 + 200) % 256 ∧
      (∀ j, j ≠ 3 → s'.registers j = zeroState.registers j) ∧
      s'.memory = zeroState.memory ∧
      s'.index_pointer = zeroState.index_pointer ∧
      s'.stack = zeroState.stack ∧
      s'.program_counter = zeroState.program_counter ∧
      s'.delay_timer = zeroState.delay_timer ∧
      s'.sound_timer = zeroState.sound_timer :=
  ⟨by decide, by decide,
   C6_add_imm ChipEmulatorConfig.default 0 3 200 (by decide) (by decide) zeroState⟩

/-- The store-registers loop succeeds when its last memory index is in
bounds, and it never modifies the index register. -/
theorem storeRegsFrom_index (cnt : Nat) : ∀ i s, s.index_pointer + i + cnt ≤ 4096 →
    ∃ s', storeRegsFrom i cnt s = some s' ∧ s'.index_pointer = s.index_pointer := by
  induction cnt with
  | zero => exact fun i s _ => ⟨s, rfl, rfl⟩
  | succ n ih =>
    intro i s h
    unfold storeRegsFrom
    rw [if_pos (by omega)]
    obtain ⟨s', h1, h2⟩ := ih (i + 1)
      { s with memory := Function.update s.memory (s.index_pointer + i) (s.registers i) }
      (by simp only []; omega)
    exact ⟨s', h1, h2⟩

/-- The load-registers loop succeeds when its last memory index is in
bounds, and it never modifies the index register. -/
theorem loadRegsFrom_index (cnt : Nat) : ∀ i s, s.index_pointer + i + cnt ≤ 4096 →
    ∃ s', loadRegsFrom i cnt s = some s' ∧ s'.index_pointer = s.index_pointer := by
  induction cnt with
  | zero => exact fun i s _ => ⟨s, rfl, rfl⟩
  | succ n ih =>
    intro i s h
    unfold loadRegsFrom
    rw [if_pos (by omega)]
    obtain ⟨s', h1, h2⟩ := ih (i + 1)
      { s with registers := Function.update s.registers i (s.memory (s.index_pointer + i)) }
      (by simp only []; omega)
    exact ⟨s', h1, h2⟩

/-- C10: when every access of the block transfer is in bounds, the FX55
store-registers and FX65 load-registers instructions (registers 0..=X
to/from memory at the index register) leave the index register unchanged. -/
theorem C10_block_transfer_index (cfg : ChipEmulatorConfig) (rand : Nat) (x : Nat)
    (hx : x < 16) (s : ChipState) (hb : s.index_pointer + x < 4096) :
    (∃ s', ChipEmulator.decode_execute cfg rand (ChipInstruction.new (16 * 15 + x) 0x55) s =
        some s' ∧ s'.index_pointer = s.index_pointer) ∧
    (∃ s', ChipEmulator.decode_execute cfg rand (ChipInstruction.new (16 * 15 + x) 0x65) s =
        some s' ∧ s'.index_pointer = s.index_pointer) := by
  rw [ChipInstruction.new_eq 15 x 0x55 hx, ChipInstruction.new_eq 15 x 0x65 hx]
  constructor
  · have h := storeRegsFrom_index (x + 1) 0 s (by omega)
    obtain ⟨s', h1, h2⟩ := h
    refine ⟨s', ?_, h2⟩
    rw [← h1]
    norm_num [ChipEmulator.decode_execute]
  · have h := loadRegsFrom_index (x + 1) 0 s (by omega)
    obtain ⟨s', h1, h2⟩ := h
    refine ⟨s', ?_, h2⟩
    rw [← h1]
    norm_num [ChipEmulator.decode_execute]

theorem C10_block_transfer_index_witness :
    (7 : Nat) < 16 ∧ zeroState.index_pointer + 7 < 4096 ∧
    ((∃ s', ChipEmulator.decode_execute ChipEmulatorConfig.default 0
        (ChipInstruction.new (16 * 15 + 7) 0x55) zeroState =
        some s' ∧ s'.index_pointer = zeroState.index_pointer) ∧
     (∃ s', ChipEmulator.decode_execute ChipEmulatorConfig.default 0
        (ChipInstruction.new (16 * 15 + 7) 0x65) zeroState =
        some s' ∧ s'.index_pointer = zeroState.index_pointer)) :=
  ⟨by decide, by decide,
   C10_block_transfer_index ChipEmulatorConfig.default 0 7 (by decide) zeroState (by decide)⟩

/-- One step with no timer tick, unfolded: the latched key is written into
the state, the instruction bytes are read at the program counter, the
program counter advances by 2, and the instruction is executed. -/
theorem step_false_eq (cfg : ChipEmulatorConfig) (key : Option Nat) (rand : Nat)
    (s : ChipState) (hpc : s.program_counter + 1 < 4096) :
    ChipEmulator.step cfg false key rand s =
      ChipEmulator.decode_execute cfg rand
        (ChipInstruction.new (s.memory s.program_counter) (s.memory (s.program_counter + 1)))
        { s with key := key, program_counter := (s.program_counter + 2) % 65536 } := by
  unfold ChipEmulator.step ChipEmulator.update_timer ChipEmulator.fetch
  simp only [Bool.false_eq_true, if_false]
  rw [if_pos hpc]

/-- C5: await-key with a latched key stores the key code into register X
and leaves the program counter at its post-fetch value; with no key latched
it decrements the program counter by 2 (modulo 2^16), so one full step
leaves the program counter exactly unchanged and the instruction re-executes
on the next step. -/
theorem C5_await_key (cfg : ChipEmulatorConfig) (rand : Nat) (x : Nat) (hx : x < 16) :
    (∀ s k, s.key = some k →
      ChipEmulator.decode_execute cfg rand (awaitInstruction x) s =
        some { s with registers := Function.update s.registers x k }) ∧
    (∀ s : ChipState, s.key = none →
      ChipEmulator.decode_execute cfg rand (awaitInstruction x) s =
        some { s with program_counter := (s.program_counter + 65534) % 65536 }) ∧
    (∀ s : ChipState, s.program_counter + 1 < 4096 →
      s.memory s.program_counter = 16 * 15 + x →
      s.memory (s.program_counter + 1) = 0x0A →
      ChipEmulator.step cfg false none rand s = some { s with key := none }) := by
  have hinstr : awaitInstruction x =
      { raw0 := 16 * 15 + x, raw1 := 0x0A, op_code := 15, p0 := x, p1 := 0, p2 := 10 } := by
    unfold awaitInstruction
    rw [ChipInstruction.new_eq 15 x 0x0A hx]
  refine ⟨?_, ?_, ?_⟩
  · intro s k h
    rw [hinstr]
    norm_num [ChipEmulator.decode_execute, h]
  · intro s h
    rw [hinstr]
    norm_num [ChipEmulator.decode_execute, h]
  · intro s hpc hm0 hm1
    rw [step_false_eq cfg none rand s hpc, hm0, hm1]
    have hi : ChipInstruction.new (16 * 15 + x) 0x0A = awaitInstruction x := rfl
    rw [hi, hinstr]
    norm_num [ChipEmulator.decode_execute, ChipState.mk.injEq]
    omega

theorem C5_await_key_witness :
    (1 : Nat) < 16 ∧
    ChipEmulator.decode_execute ChipEmulatorConfig.default 0 (awaitInstruction 1) keyState =
      some { keyState with registers := Function.update keyState.registers 1 7 } ∧
    ChipEmulator.decode_execute ChipEmulatorConfig.default 0 (awaitInstruction 1) zeroState =
      some { zeroState with program_counter := (zeroState.program_counter + 65534) % 65536 } ∧
    ChipEmulator.step ChipEmulatorConfig.default false none 0 awaitState =
      some { awaitState with key := none } :=
  ⟨by decide,
   (C5_await_key ChipEmulatorConfig.default 0 1 (by decide)).1 keyState 7 rfl,
   (C5_await_key ChipEmulatorConfig.default 0 1 (by decide)).2.1 zeroState rfl,
   (C5_await_key ChipEmulatorConfig.default 0 1 (by decide)).2.2 awaitState (by decide) rfl rfl⟩

/-- An instruction matching no dispatch arm falls to the catch-all arm of
`decode_execute` and leaves the state untouched. -/
theorem decode_unrecognized (cfg : ChipEmulatorConfig) (rand : Nat)
    (i : ChipInstruction) (s : ChipState) (h : ¬ instructionRecognized i) :
    ChipEmulator.decode_execute cfg rand i s = some s := by
  simp only [instructionRecognized, not_or] at h
  obtain ⟨h1, h2, h3, h4, h5, h6, h7, h8, h9, h10, h11, h12, h13, h14, h15, h16, h17,
    h18, h19, h20, h21, h22, h23, h24, h25, h26⟩ := h
  unfold ChipEmulator.decode_execute
  rw [if_neg h1, if_neg h2, if_neg h3, if_neg h4, if_neg h5, if_neg h6, if_neg h7,
    if_neg h8, if_neg h9, if_neg h10, if_neg h11, if_neg h12, if_neg h13, if_neg h14,
    if_neg h15, if_neg h16, if_neg h17, if_neg h18, if_neg h19, if_neg h20, if_neg h21,
    if_neg h22, if_neg h23, if_neg h24, if_neg h25, if_neg h26]

/-- An ALU sub-selector matching no arm falls to the catch-all arm of `alu`
and leaves the state untouched. -/
theorem alu_unrecognized (cfg : ChipEmulatorConfig) (p0 p1 p2 : Nat) (s : ChipState)
    (h : ¬ aluRecognized p2) : ChipEmulator.alu cfg p0 p1 p2 s = s := by
  simp only [aluRecognized, not_or] at h
  obtain ⟨h1, h2, h3, h4, h5, h6, h7, h8, h9⟩ := h
  unfold ChipEmulator.alu
  rw [if_neg h1, if_neg h2, if_neg h3, if_neg h4, if_neg h5, if_neg h6, if_neg h7,
    if_neg h8, if_neg h9]

/-- C4: an instruction whose opcode class and parameter nibbles match no
defined behavior, and an ALU instruction whose sub-selector matches none,
are reported and change no emulator state; a full step on such an
instruction therefore only latches the key and advances the program counter
by the fetch's +2. -/
theorem C4_unrecognized_no_state_change (cfg : ChipEmulatorConfig) (rand : Nat) :
    (∀ i s, ¬ instructionRecognized i →
      ChipEmulator.decode_execute cfg rand i s = some s) ∧
    (∀ p0 p1 p2 s, ¬ aluRecognized p2 →
      ChipEmulator.alu cfg p0 p1 p2 s = s) ∧
    (∀ (s : ChipState) (key : Option Nat), s.program_counter + 1 < 4096 →
      ¬ instructionRecognized
          (ChipInstruction.new (s.memory s.program_counter) (s.memory (s.program_counter + 1))) →
      ChipEmulator.step cfg false key rand s =
        some { s with key := key, program_counter := (s.program_counter + 2) % 65536 }) := by
  refine ⟨fun i s h => decode_unrecognized cfg rand i s h,
          fun p0 p1 p2 s h => alu_unrecognized cfg p0 p1 p2 s h,
          fun s key hpc h => ?_⟩
  rw [step_false_eq cfg key rand s hpc]
  exact decode_unrecognized cfg rand _ _ h

theorem C4_unrecognized_no_state_change_witness :
    (¬ instructionRecognized (ChipInstruction.new 0xE0 0x00) →
      ChipEmulator.decode_execute ChipEmulatorConfig.default 0
        (ChipInstruction.new 0xE0 0x00) zeroState = some zeroState) ∧
    (ChipEmulator.decode_execute ChipEmulatorConfig.default 0
        (ChipInstruction.new 0xE0 0x00) zeroState = some zeroState) ∧
    (ChipEmulator.alu ChipEmulatorConfig.default 0 1 8 zeroState = zeroState) ∧
    (ChipEmulator.step ChipEmulatorConfig.default false none 0 unrecState =
      some { unrecState with key := none, program_counter := (unrecState.program_counter + 2) % 65536 }) :=
  ⟨fun h => (C4_unrecognized_no_state_change ChipEmulatorConfig.default 0).1
      (ChipInstruction.new 0xE0 0x00) zeroState h,
   (C4_unrecognized_no_state_change ChipEmulatorConfig.default 0).1
      (ChipInstruction.new 0xE0 0x00) zeroState (by decide),
   (C4_unrecognized_no_state_change ChipEmulatorConfig.default 0).2.1 0 1 8 zeroState (by decide),
   (C4_unrecognized_no_state_change ChipEmulatorConfig.default 0).2.2 unrecState none
      (by decide) (by decide)⟩

/-- C8 counterexample: from one and the same state, with the same latched
key input (none), one step can reach two different successor states,
because the 0xCXNN instruction reads the thread-local random generator:
with random byte 255 register 0 becomes 255, with random byte 0 it becomes
0.  So a step is not a deterministic function of state and key alone. -/
theorem C8_counterexample :
    StepRel ChipEmulatorConfig.default none randState randResultA ∧
    StepRel ChipEmulatorConfig.default none randState randResultB ∧
    randResultA ≠ randResultB :=
  ⟨⟨false, 255, by norm_num, rfl⟩,
   ⟨false, 0, by norm_num, rfl⟩,
   fun h => absurd (congrArg (fun t => t.registers 0) h) (by decide)⟩

/-- C8, amended: a step is a single deterministic state transition once all
externally sampled inputs are fixed — from identical states, with the same
latched key, the same timer-tick decision and the same sampled random byte,
two executions of step produce identical successor states. -/
theorem C8_step_deterministic (cfg : ChipEmulatorConfig) (tick : Bool) (key : Option Nat)
    (rand : Nat) (s s1 s2 : ChipState)
    (h1 : ChipEmulator.step cfg tick key rand s = some s1)
    (h2 : ChipEmulator.step cfg tick key rand s = some s2) : s1 = s2 := by
  rw [h1] at h2
  exact Option.some.inj h2

theorem C8_step_deterministic_witness :
    ChipEmulator.step ChipEmulatorConfig.default false none 0 randState = some randResultB ∧
    randResultB = randResultB :=
  ⟨rfl,
   C8_step_deterministic ChipEmulatorConfig.default false none 0 randState
     randResultB randResultB rfl rfl⟩

/-- One step for an arbitrary timer tick, unfolded: timers update first,
then the key is latched, the instruction bytes are read at the program
counter, the program counter advances by 2 and the instruction executes. -/
theorem step_eq (cfg : ChipEmulatorConfig) (tick : Bool) (key : Option Nat) (rand : Nat)
    (s : ChipState) (hpc : s.program_counter + 1 < 4096) :
    ChipEmulator.step cfg tick key rand s =
      ChipEmulator.decode_execute cfg rand
        (ChipInstruction.new (s.memory s.program_counter) (s.memory (s.program_counter + 1)))
        (afterFetch tick key s) := by
  have hm : (ChipEmulator.update_timer tick s).memory = s.memory := by
    unfold ChipEmulator.update_timer
    split <;> rfl
  have hp : (ChipEmulator.update_timer tick s).program_counter = s.program_counter := by
    unfold ChipEmulator.update_timer
    split <;> rfl
  unfold ChipEmulator.step ChipEmulator.fetch afterFetch
  simp only [hm, hp]
  rw [if_pos hpc]

/-- C9: loading the 2-byte ROM 0x00 0xE0 at 0x200 and executing one step
clears every framebuffer pixel, leaves the program counter at 0x202, and
sets the one-shot dirty flag exposed by the framebuffer read alongside the
pixel values; reading the framebuffer clears the flag. -/
theorem C9_clear_screen_scenario (tick : Bool) (key : Option Nat) (rand : Nat) :
    ∃ s', ChipEmulator.step ChipEmulatorConfig.default tick key rand
        (ChipEmulator.load_rom [0x00, 0xE0]
          (ChipEmulator.initialize_emulator ChipEmulatorConfig.default)) = some s' ∧
      (∀ p, s'.video_buffer p = 0) ∧
      s'.program_counter = 0x202 ∧
      (ChipEmulator.get_video_buffer s').1.2 = true ∧
      (∀ p, (ChipEmulator.get_video_buffer s').1.1 p = s'.video_buffer p) ∧
      (ChipEmulator.get_video_buffer s').2.display_updated = false := by
  have hstep := step_eq ChipEmulatorConfig.default tick key rand
    (ChipEmulator.load_rom [0x00, 0xE0] (ChipEmulator.initialize_emulator ChipEmulatorConfig.default))
    (by decide)
  refine ⟨clearResult tick key, ?_, fun p => rfl, rfl, rfl, fun p => rfl, rfl⟩
  rw [hstep]
  rfl

/-- Two pixel positions of one row with different column offsets below 64
are different framebuffer indices. -/
theorem drawPos_ne (sx y a b : Nat) (ha : a < 64) (hb : b < 64) (hab : a ≠ b) :
    64 * y + (sx + a) % 64 ≠ 64 * y + (sx + b) % 64 := by
  omega

/-- `drawStepBit` leaves every field except `video_buffer` and `registers`
unchanged. -/
theorem drawStepBit_frame (sx y b bit : Nat) (s : ChipState) :
    (drawStepBit sx y b bit s).memory = s.memory ∧
    (drawStepBit sx y b bit s).program_counter = s.program_counter ∧
    (drawStepBit sx y b bit s).index_pointer = s.index_pointer ∧
    (drawStepBit sx y b bit s).stack = s.stack ∧
    (drawStepBit sx y b bit s).delay_timer = s.delay_timer ∧
    (drawStepBit sx y b bit s).sound_timer = s.sound_timer ∧
    (drawStepBit sx y b bit s).key = s.key ∧
    (drawStepBit sx y b bit s).display_updated = s.display_updated := by
  simp only [drawStepBit, SCREEN_WIDTH]
  split_ifs <;> exact ⟨rfl, rfl, rfl, rfl, rfl, rfl, rfl, rfl⟩

/-- `drawStepBit` leaves every register other than the flag register
unchanged. -/
theorem drawStepBit_registers_ne (sx y b bit : Nat) (s : ChipState) (j : Nat) (hj : j ≠ 15) :
    (drawStepBit sx y b bit s).registers j = s.registers j := by
  simp only [drawStepBit, SCREEN_WIDTH]
  split_ifs <;> simp [Function.update_noteq hj]

/-- `drawStepBit` leaves every pixel other than its target unchanged. -/
theorem drawStepBit_video_ne (sx y b bit : Nat) (s : ChipState) (p : Nat)
    (hp : p ≠ 64 * y + (sx + bit) % 64) :
    (drawStepBit sx y b bit s).video_buffer p = s.video_buffer p := by
  simp only [drawStepBit, SCREEN_WIDTH]
  split_ifs <;> simp [Function.update_noteq hp]

/-- `drawStepBit` preserves the 1-bit-pixel invariant. -/
theorem drawStepBit_video_le (sx y b bit : Nat) (s : ChipState)
    (h : ∀ p, s.video_buffer p ≤ 1) :
    ∀ p, (drawStepBit sx y b bit s).video_buffer p ≤ 1 := by
  intro p
  simp only [drawStepBit, SCREEN_WIDTH]
  split_ifs
  · rcases eq_or_ne p (64 * y + (sx + bit) % 64) with he | he
    · subst he
      simp [Function.update_same]
    · simpa [Function.update_noteq he] using h p
  · rcases eq_or_ne p (64 * y + (sx + bit) % 64) with he | he
    · subst he
      simp [Function.update_same]
    · simpa [Function.update_noteq he] using h p
  · exact h p

/-- `drawBits` leaves every field except `video_buffer` and `registers`
unchanged. -/
theorem drawBits_frame (sx y b : Nat) : ∀ (n : Nat) (s : ChipState),
    (drawBits sx y b n s).memory = s.memory ∧
    (drawBits sx y b n s).program_counter = s.program_counter ∧
    (drawBits sx y b n s).index_pointer = s.index_pointer ∧
    (drawBits sx y b n s).stack = s.stack ∧
    (drawBits sx y b n s).delay_timer = s.delay_timer ∧
    (drawBits sx y b n s).sound_timer = s.sound_timer ∧
    (drawBits sx y b n s).key = s.key ∧
    (drawBits sx y b n s).display_updated = s.display_updated := by
  intro n
  induction n with
  | zero => exact fun s => ⟨rfl, rfl, rfl, rfl, rfl, rfl, rfl, rfl⟩
  | succ n ih =>
    intro s
    obtain ⟨i1, i2, i3, i4, i5, i6, i7, i8⟩ := ih s
    obtain ⟨f1, f2, f3, f4, f5, f6, f7, f8⟩ := drawStepBit_frame sx y b n (drawBits sx y b n s)
    exact ⟨f1.trans i1, f2.trans i2, f3.trans i3, f4.trans i4, f5.trans i5,
      f6.trans i6, f7.trans i7, f8.trans i8⟩

/-- `drawBits` leaves every register other than the flag register
unchanged. -/
theorem drawBits_registers_ne (sx y b : Nat) : ∀ (n : Nat) (s : ChipState) (j : Nat), j ≠ 15 →
    (drawBits sx y b n s).registers j = s.registers j := by
  intro n
  induction n with
  | zero => exact fun s j _ => rfl
  | succ n ih =>
    intro s j hj
    exact (drawStepBit_registers_ne sx y b n _ j hj).trans (ih s j hj)

/-- `drawBits` leaves every pixel outside its bit range unchanged. -/
theorem drawBits_video_ne (sx y b : Nat) : ∀ (n : Nat) (s : ChipState) (p : Nat),
    (∀ c, c < n → p ≠ 64 * y + (sx + c) % 64) →
    (drawBits sx y b n s).video_buffer p = s.video_buffer p := by
  intro n
  induction n with
  | zero => exact fun s p _ => rfl
  | succ n ih =>
    intro s p hp
    exact (drawStepBit_video_ne sx y b n _ p (hp n (Nat.lt_succ_self n))).trans
      (ih s p fun c hc => hp c (Nat.lt_succ_of_lt hc))

/-- `drawBits` preserves the 1-bit-pixel invariant. -/
theorem drawBits_video_le (sx y b : Nat) : ∀ (n : Nat) (s : ChipState),
    (∀ p, s.video_buffer p ≤ 1) → ∀ p, (drawBits sx y b n s).video_buffer p ≤ 1 := by
  intro n
  induction n with
  | zero => exact fun s h => h
  | succ n ih => exact fun s h => drawStepBit_video_le sx y b n _ (ih s h)

/-- The value of the pixel targeted by `drawStepBit`: the conditional
update of the source. -/
theorem drawStepBit_video_touched (sx y b bit : Nat) (s : ChipState) :
    (drawStepBit sx y b bit s).video_buffer (64 * y + (sx + bit) % 64) =
      (if spritePixel b bit ≠ 0 ∧ s.video_buffer (64 * y + (sx + bit) % 64) ≠ 0 then 0
       else if spritePixel b bit ≠ 0 then 1
       else s.video_buffer (64 * y + (sx + bit) % 64)) := by
  simp only [drawStepBit, SCREEN_WIDTH]
  split_ifs <;> (try simp [Function.update_same]) <;> tauto

/-- The flag register after `drawStepBit`: set to 1 on a collision of the
processed bit, otherwise unchanged. -/
theorem drawStepBit_flag (sx y b bit : Nat) (s : ChipState) :
    (drawStepBit sx y b bit s).registers 15 =
      (if spritePixel b bit ≠ 0 ∧ s.video_buffer (64 * y + (sx + bit) % 64) ≠ 0 then 1
       else s.registers 15) := by
  simp only [drawStepBit, SCREEN_WIDTH]
  split_ifs <;> simp [Function.update_same]

/-- The value of a touched pixel after the first `n` bits of one sprite row:
the conditional update of the source, evaluated against the pre-row
framebuffer (each pixel of a row is touched exactly once). -/
theorem drawBits_video_touched (sx y b : Nat) : ∀ (n : Nat), n ≤ 64 → ∀ (s : ChipState) (c : Nat),
    c < n →
    (drawBits sx y b n s).video_buffer (64 * y + (sx + c) % 64) =
      (if spritePixel b c ≠ 0 ∧ s.video_buffer (64 * y + (sx + c) % 64) ≠ 0 then 0
       else if spritePixel b c ≠ 0 then 1
       else s.video_buffer (64 * y + (sx + c) % 64)) := by
  intro n
  induction n with
  | zero => exact fun _ s c hc => absurd hc (Nat.not_lt_zero c)
  | succ n ih =>
    intro hn s c hc
    show (drawStepBit sx y b n (drawBits sx y b n s)).video_buffer _ = _
    rcases Nat.lt_succ_iff_lt_or_eq.mp hc with hlt | heq
    · rw [drawStepBit_video_ne sx y b n _ _
        (drawPos_ne sx y c n (by omega) (by omega) (by omega))]
      exact ih (by omega) s c hlt
    · subst heq
      have hv : (drawBits sx y b c s).video_buffer (64 * y + (sx + c) % 64) =
          s.video_buffer (64 * y + (sx + c) % 64) :=
        drawBits_video_ne sx y b c s _
          (fun i hi => drawPos_ne sx y c i (by omega) (by omega) (by omega))
      rw [drawStepBit_video_touched sx y b c (drawBits sx y b c s), hv]

/-- The flag register after the first `n` bits of one sprite row: it becomes
1 exactly when some already-processed bit collided, measured against the
pre-row framebuffer. -/
theorem drawBits_flag (sx y b : Nat) : ∀ (n : Nat), n ≤ 64 → ∀ (s : ChipState),
    (drawBits sx y b n s).registers 15 =
      (if rowCollision sx y b s.video_buffer n then 1 else s.registers 15) := by
  intro n
  induction n with
  | zero => exact fun _ s => by simp [drawBits, rowCollision]
  | succ n ih =>
    intro hn s
    show (drawStepBit sx y b n (drawBits sx y b n s)).registers 15 = _
    have hv : (drawBits sx y b n s).video_buffer (64 * y + (sx + n) % 64) =
        s.video_buffer (64 * y + (sx + n) % 64) :=
      drawBits_video_ne sx y b n s _
        (fun i hi => drawPos_ne sx y n i (by omega) (by omega) (by omega))
    have hrow : rowCollision sx y b s.video_buffer (n + 1) =
        (rowCollision sx y b s.video_buffer n || bitCollision sx y b s.video_buffer n) := rfl
    rw [drawStepBit_flag sx y b n (drawBits sx y b n s), hv, ih (by omega) s, hrow]
    by_cases h1 : spritePixel b n ≠ 0 ∧ s.video_buffer (64 * y + (sx + n) % 64) ≠ 0
    · have hbit : bitCollision sx y b s.video_buffer n = true := by
        simp [bitCollision, h1.1, h1.2]
      rw [if_pos h1, hbit]
      simp
    · have hbit : bitCollision sx y b s.video_buffer n = false := by
        rw [Bool.eq_false_iff]
        intro hc
        apply h1
        simpa [bitCollision, Bool.and_eq_true, bne_iff_ne] using hc
      rw [if_neg h1, hbit]
      simp

/-- `drawRows` leaves every field except `video_buffer` and `registers`
unchanged. -/
theorem drawRows_frame (sx sy : Nat) : ∀ (sprite : List Nat) (r : Nat) (s : ChipState),
    (drawRows sx sy sprite r s).memory = s.memory ∧
    (drawRows sx sy sprite r s).program_counter = s.program_counter ∧
    (drawRows sx sy sprite r s).index_pointer = s.index_pointer ∧
    (drawRows sx sy sprite r s).stack = s.stack ∧
    (drawRows sx sy sprite r s).delay_timer = s.delay_timer ∧
    (drawRows sx sy sprite r s).sound_timer = s.sound_timer ∧
    (drawRows sx sy sprite r s).key = s.key ∧
    (drawRows sx sy sprite r s).display_updated = s.display_updated := by
  intro sprite
  induction sprite with
  | nil => exact fun r s => ⟨rfl, rfl, rfl, rfl, rfl, rfl, rfl, rfl⟩
  | cons b rest ih =>
    intro r s
    simp only [drawRows]
    split_ifs with hy
    · exact ⟨rfl, rfl, rfl, rfl, rfl, rfl, rfl, rfl⟩
    · obtain ⟨i1, i2, i3, i4, i5, i6, i7, i8⟩ := ih (r + 1) (drawBits sx (sy + r) b 8 s)
      obtain ⟨f1, f2, f3, f4, f5, f6, f7, f8⟩ := drawBits_frame sx (sy + r) b 8 s
      exact ⟨i1.trans f1, i2.trans f2, i3.trans f3, i4.trans f4, i5.trans f5,
        i6.trans f6, i7.trans f7, i8.trans f8⟩

/-- `drawRows` leaves every register other than the flag register
unchanged. -/
theorem drawRows_registers_ne (sx sy : Nat) : ∀ (sprite : List Nat) (r : Nat) (s : ChipState)
    (j : Nat), j ≠ 15 → (drawRows sx sy sprite r s).registers j = s.registers j := by
  intro sprite
  induction sprite with
  | nil => exact fun r s j _ => rfl
  | cons b rest ih =>
    intro r s j hj
    simp only [drawRows]
    split_ifs with hy
    · rfl
    · exact (ih (r + 1) _ j hj).trans (drawBits_registers_ne sx (sy + r) b 8 s j hj)

/-- `drawRows` preserves the 1-bit-pixel invariant. -/
theorem drawRows_video_le (sx sy : Nat) : ∀ (sprite : List Nat) (r : Nat) (s : ChipState),
    (∀ p, s.video_buffer p ≤ 1) → ∀ p, (drawRows sx sy sprite r s).video_buffer p ≤ 1 := by
  intro sprite
  induction sprite with
  | nil => exact fun r s h => h
  | cons b rest ih =>
    intro r s h
    simp only [drawRows]
    split_ifs with hy
    · exact h
    · exact ih (r + 1) _ (drawBits_video_le sx (sy + r) b 8 s h)

/-- `drawRows` leaves every pixel outside the drawn region unchanged. -/
theorem drawRows_video_ne (sx sy : Nat) : ∀ (sprite : List Nat) (r : Nat) (s : ChipState) (p : Nat),
    (∀ k, k < sprite.length → sy + r + k < 32 → ∀ c, c < 8 →
      p ≠ 64 * (sy + r + k) + (sx + c) % 64) →
    (drawRows sx sy sprite r s).video_buffer p = s.video_buffer p := by
  intro sprite
  induction sprite with
  | nil => exact fun r s p _ => rfl
  | cons b rest ih =>
    intro r s p hp
    simp only [drawRows]
    split_ifs with hy
    · rfl
    · have hrest : (drawRows sx sy rest (r + 1) (drawBits sx (sy + r) b 8 s)).video_buffer p =
          (drawBits sx (sy + r) b 8 s).video_buffer p := by
        apply ih (r + 1)
        intro k hk hyk c hc
        have harith : sy + (r + 1) + k = sy + r + (k + 1) := by omega
        rw [harith]
        exact hp (k + 1) (by simp only [List.length_cons]; omega) (by omega) c hc
      rw [hrest]
      apply drawBits_video_ne
      intro c hc
      have h0 := hp 0 (by simp only [List.length_cons]; omega) (by omega) c hc
      simpa using h0

/-- The value of a pixel in the drawn region after `drawRows`: the
conditional XOR update of the source against the pre-draw framebuffer
(each pixel of the region is touched exactly once). -/
theorem drawRows_video_touched (sx sy : Nat) : ∀ (sprite : List Nat) (r : Nat) (s : ChipState)
    (k : Nat), k < sprite.length → sy + r + k < 32 → ∀ c, c < 8 →
    (drawRows sx sy sprite r s).video_buffer (64 * (sy + r + k) + (sx + c) % 64) =
      (if spritePixel (sprite.getD k 0) c ≠ 0 ∧
          s.video_buffer (64 * (sy + r + k) + (sx + c) % 64) ≠ 0 then 0
       else if spritePixel (sprite.getD k 0) c ≠ 0 then 1
       else s.video_buffer (64 * (sy + r + k) + (sx + c) % 64)) := by
  intro sprite
  induction sprite with
  | nil => exact fun r s k hk => absurd hk (Nat.not_lt_zero k)
  | cons b rest ih =>
    intro r s k hk hyk c hc
    simp only [drawRows]
    by_cases hy : 32 ≤ sy + r
    · exact absurd hy (by omega)
    · rw [if_neg hy]
      rcases k with _ | k
      · have hrest : ∀ q, (∀ k', k' < rest.length → sy + (r + 1) + k' < 32 → ∀ c', c' < 8 →
              q ≠ 64 * (sy + (r + 1) + k') + (sx + c') % 64) →
              (drawRows sx sy rest (r + 1) (drawBits sx (sy + r) b 8 s)).video_buffer q =
                (drawBits sx (sy + r) b 8 s).video_buffer q :=
            fun q hq => drawRows_video_ne sx sy rest (r + 1) _ q hq
        rw [hrest _ (fun k' hk' hyk' c' hc' => by omega)]
        have ht := drawBits_video_touched sx (sy + r) b 8 (by omega) s c hc
        simpa using ht
      · have harith : sy + r + (k + 1) = sy + (r + 1) + k := by omega
        rw [harith]
        have hs1 := ih (r + 1) (drawBits sx (sy + r) b 8 s) k
          (by simp only [List.length_cons] at hk; omega) (by omega) c hc
        have hv : (drawBits sx (sy + r) b 8 s).video_buffer
            (64 * (sy + (r + 1) + k) + (sx + c) % 64) =
            s.video_buffer (64 * (sy + (r + 1) + k) + (sx + c) % 64) := by
          apply drawBits_video_ne
          intro c' hc'
          omega
        rw [hv] at hs1
        simpa using hs1

/-- Row collision only inspects the 8 pixel positions of the row. -/
theorem rowCollision_congr (sx y b : Nat) (v1 v2 : Nat → Nat) : ∀ (n : Nat),
    (∀ c, c < n → v1 (64 * y + (sx + c) % 64) = v2 (64 * y + (sx + c) % 64)) →
    rowCollision sx y b v1 n = rowCollision sx y b v2 n := by
  intro n
  induction n with
  | zero => exact fun _ => rfl
  | succ n ih =>
    intro h
    show (rowCollision sx y b v1 n || bitCollision sx y b v1 n) = _
    rw [ih (fun c hc => h c (Nat.lt_succ_of_lt hc))]
    have hbit : bitCollision sx y b v1 n = bitCollision sx y b v2 n := by
      unfold bitCollision
      rw [h n (Nat.lt_succ_self n)]
    rw [hbit]
    rfl

/-- Sprite collision only inspects pixels of drawn rows, which lie at or
below the current row index and above row 32 never occur. -/
theorem spriteCollision_congr (sx sy : Nat) : ∀ (sprite : List Nat) (r : Nat) (v1 v2 : Nat → Nat),
    (∀ y x, sy + r ≤ y → y < 32 → x < 64 → v1 (64 * y + x) = v2 (64 * y + x)) →
    spriteCollision sx sy v1 sprite r = spriteCollision sx sy v2 sprite r := by
  intro sprite
  induction sprite with
  | nil => exact fun r v1 v2 _ => rfl
  | cons b rest ih =>
    intro r v1 v2 h
    simp only [spriteCollision]
    split_ifs with hy
    · rfl
    · rw [rowCollision_congr sx (sy + r) b v1 v2 8
        (fun c hc => h (sy + r) ((sx + c) % 64) (by omega) (by omega) (by omega)),
        ih (r + 1) v1 v2 (fun y x hy1 hy2 hx => h y x (by omega) hy2 hx)]

/-- The flag register after `drawRows`: set exactly when some drawn pixel
collided, measured against the pre-draw framebuffer. -/
theorem drawRows_flag (sx sy : Nat) : ∀ (sprite : List Nat) (r : Nat) (s : ChipState),
    (drawRows sx sy sprite r s).registers 15 =
      (if spriteCollision sx sy s.video_buffer sprite r then 1 else s.registers 15) := by
  intro sprite
  induction sprite with
  | nil => exact fun r s => by simp [drawRows, spriteCollision]
  | cons b rest ih =>
    intro r s
    by_cases hy : 32 ≤ sy + r
    · have hl : drawRows sx sy (b :: rest) r s = s := by
        simp only [drawRows]
        rw [if_pos hy]
      have hsc : spriteCollision sx sy s.video_buffer (b :: rest) r = false := by
        simp only [spriteCollision]
        rw [if_pos hy]
      simp only [hl, hsc]
      simp
    · have hl : drawRows sx sy (b :: rest) r s =
          drawRows sx sy rest (r + 1) (drawBits sx (sy + r) b 8 s) := by
        simp only [drawRows]
        rw [if_neg hy]
      have hsc : spriteCollision sx sy s.video_buffer (b :: rest) r =
          (rowCollision sx (sy + r) b s.video_buffer 8 ||
            spriteCollision sx sy s.video_buffer rest (r + 1)) := by
        simp only [spriteCollision]
        rw [if_neg hy]
      have hcongr : spriteCollision sx sy (drawBits sx (sy + r) b 8 s).video_buffer rest (r + 1) =
          spriteCollision sx sy s.video_buffer rest (r + 1) := by
        apply spriteCollision_congr
        intro y x hy1 hy2 hx
        apply drawBits_video_ne
        intro c hc
        omega
      simp only [hl, hsc, ih (r + 1) (drawBits sx (sy + r) b 8 s), hcongr,
        drawBits_flag sx (sy + r) b 8 (by omega) s]
      cases h1 : rowCollision sx (sy + r) b s.video_buffer 8 <;>
        cases h2 : spriteCollision sx sy s.video_buffer rest (r + 1) <;> simp [h1, h2]

/-- Reading the sprite slice: entry `k` of the mapped range list is the
memory byte at `index_pointer + k`. -/
theorem sprite_getD (f : Nat → Nat) (n k : Nat) (hk : k < n) :
    ((List.range n).map f).getD k 0 = f k := by
  rw [List.getD_eq_getElem?_getD]
  simp [List.getElem?_map, List.getElem?_range, hk]

/-- `draw` succeeds only when the sprite slice is in bounds. -/
theorem draw_some_bound (s : ChipState) (p0 p1 n : Nat) (s' : ChipState)
    (h : ChipEmulator.draw p0 p1 n s = some s') : s.index_pointer + n ≤ 4096 := by
  by_contra hc
  unfold ChipEmulator.draw at h
  rw [if_neg hc] at h
  exact Option.noConfusion h

/-- Full characterization of `draw` when the sprite slice is in bounds:
frame fields unchanged, each drawn pixel conditionally toggled against the
pre-draw framebuffer, pixels outside the drawn region unchanged, and the
flag register 1 exactly on a collision. -/
theorem draw_characterized (s : ChipState) (p0 p1 n : Nat)
    (hin : s.index_pointer + n ≤ 4096) :
    ∃ s', ChipEmulator.draw p0 p1 n s = some s' ∧
      s'.memory = s.memory ∧
      s'.index_pointer = s.index_pointer ∧
      s'.program_counter = s.program_counter ∧
      s'.stack = s.stack ∧
      s'.delay_timer = s.delay_timer ∧
      s'.sound_timer = s.sound_timer ∧
      s'.key = s.key ∧
      s'.display_updated = true ∧
      (∀ j, j ≠ 15 → s'.registers j = s.registers j) ∧
      ((∀ p, s.video_buffer p ≤ 1) → ∀ p, s'.video_buffer p ≤ 1) ∧
      (∀ k, k < n → s.registers p1 % 32 + k < 32 → ∀ c, c < 8 →
        s'.video_buffer (64 * (s.registers p1 % 32 + k) + (s.registers p0 % 64 + c) % 64) =
          (if spritePixel (s.memory (s.index_pointer + k)) c ≠ 0 ∧
              s.video_buffer
                (64 * (s.registers p1 % 32 + k) + (s.registers p0 % 64 + c) % 64) ≠ 0
           then 0
           else if spritePixel (s.memory (s.index_pointer + k)) c ≠ 0 then 1
           else s.video_buffer
             (64 * (s.registers p1 % 32 + k) + (s.registers p0 % 64 + c) % 64))) ∧
      (∀ p, (∀ k, k < n → s.registers p1 % 32 + k < 32 → ∀ c, c < 8 →
          p ≠ 64 * (s.registers p1 % 32 + k) + (s.registers p0 % 64 + c) % 64) →
        s'.video_buffer p = s.video_buffer p) ∧
      s'.registers 15 =
        (if spriteCollision (s.registers p0 % 64) (s.registers p1 % 32) s.video_buffer
            ((List.range n).map fun i => s.memory (s.index_pointer + i)) 0
         then 1 else 0) := by
  have hdraw : ChipEmulator.draw p0 p1 n s =
      some { drawRows (s.registers p0 % 64) (s.registers p1 % 32)
               ((List.range n).map fun i => s.memory (s.index_pointer + i)) 0
               { s with registers := Function.update s.registers 15 0 } with
             display_updated := true } := by
    unfold ChipEmulator.draw
    rw [if_pos hin]
  refine ⟨_, hdraw, ?_, ?_, ?_, ?_, ?_, ?_, ?_, rfl, ?_, ?_, ?_, ?_, ?_⟩
  · exact (drawRows_frame _ _ _ _ _).1
  · exact (drawRows_frame _ _ _ _ _).2.2.1
  · exact (drawRows_frame _ _ _ _ _).2.1
  · exact (drawRows_frame _ _ _ _ _).2.2.2.1
  · exact (drawRows_frame _ _ _ _ _).2.2.2.2.1
  · exact (drawRows_frame _ _ _ _ _).2.2.2.2.2.1
  · exact (drawRows_frame _ _ _ _ _).2.2.2.2.2.2.1
  · intro j hj
    exact (drawRows_registers_ne _ _ _ _ _ j hj).trans (Function.update_noteq hj _ _)
  · intro h p
    exact drawRows_video_le (s.registers p0 % 64) (s.registers p1 % 32)
      ((List.range n).map fun i => s.memory (s.index_pointer + i)) 0
      { s with registers := Function.update s.registers 15 0 } h p
  · intro k hk hyk c hc
    have hk' : k < ((List.range n).map fun i => s.memory (s.index_pointer + i)).length := by
      simpa using hk
    have ht := drawRows_video_touched (s.registers p0 % 64) (s.registers p1 % 32)
      ((List.range n).map fun i => s.memory (s.index_pointer + i)) 0
      { s with registers := Function.update s.registers 15 0 } k hk' (by simpa using hyk) c hc
    rw [sprite_getD (fun i => s.memory (s.index_pointer + i)) n k hk] at ht
    exact ht
  · intro p hp
    exact drawRows_video_ne _ _ _ 0 _ p
      (fun k hk hyk c hc => hp k (by simpa using hk) hyk c hc)
  · exact drawRows_flag _ _ _ 0 _

/-- For 1-bit pixels the source's conditional update is an XOR with the
sprite bit. -/
theorem toggle_eq_xor (old sp : Nat) (h : old ≤ 1) :
    (if sp ≠ 0 ∧ old ≠ 0 then 0 else if sp ≠ 0 then 1 else old) =
      Nat.xor old (if sp = 0 then 0 else 1) := by
  interval_cases old <;> by_cases hsp : sp = 0 <;> simp [hsp] <;> rfl

/-- The sprite bit is 1 exactly when the sprite pixel mask is non-zero. -/
theorem spriteBit_eq_one_iff (b c : Nat) : spriteBit b c = 1 ↔ spritePixel b c ≠ 0 := by
  unfold spriteBit
  split_ifs with h <;> simp [h]

/-- Unfolding row collision into an existential over the 8 bits. -/
theorem rowCollision_iff (sx y b : Nat) (v : Nat → Nat) : ∀ (n : Nat),
    rowCollision sx y b v n = true ↔
      ∃ c, c < n ∧ spritePixel b c ≠ 0 ∧ v (64 * y + (sx + c) % 64) ≠ 0 := by
  intro n
  induction n with
  | zero => simp [rowCollision]
  | succ n ih =>
    show (rowCollision sx y b v n || bitCollision sx y b v n) = true ↔ _
    rw [Bool.or_eq_true, ih]
    constructor
    · rintro (⟨c, hc, h1, h2⟩ | hbit)
      · exact ⟨c, Nat.lt_succ_of_lt hc, h1, h2⟩
      · have hb2 : spritePixel b n ≠ 0 ∧ v (64 * y + (sx + n) % 64) ≠ 0 := by
          simpa [bitCollision, Bool.and_eq_true, bne_iff_ne] using hbit
        exact ⟨n, Nat.lt_succ_self n, hb2.1, hb2.2⟩
    · rintro ⟨c, hc, h1, h2⟩
      rcases Nat.lt_succ_iff_lt_or_eq.mp hc with hlt | heq
      · exact Or.inl ⟨c, hlt, h1, h2⟩
      · subst heq
        right
        simp [bitCollision, Bool.and_eq_true, bne_iff_ne, h1, h2]

/-- Unfolding sprite collision into an existential over drawn rows and
bits. -/
theorem spriteCollision_iff (sx sy : Nat) (v : Nat → Nat) : ∀ (sprite : List Nat) (r : Nat),
    spriteCollision sx sy v sprite r = true ↔
      ∃ k, k < sprite.length ∧ sy + r + k < 32 ∧ ∃ c, c < 8 ∧
        spritePixel (sprite.getD k 0) c ≠ 0 ∧ v (64 * (sy + r + k) + (sx + c) % 64) ≠ 0 := by
  intro sprite
  induction sprite with
  | nil =>
    intro r
    simp [spriteCollision]
  | cons b rest ih =>
    intro r
    simp only [spriteCollision]
    by_cases hy : 32 ≤ sy + r
    · rw [if_pos hy]
      constructor
      · intro h
        exact absurd h (by simp)
      · rintro ⟨k, hk, hyk, _⟩
        exact absurd hyk (by omega)
    · rw [if_neg hy, Bool.or_eq_true, rowCollision_iff, ih (r + 1)]
      constructor
      · rintro (⟨c, hc, h1, h2⟩ | ⟨k, hk, hyk, c, hc, h1, h2⟩)
        · refine ⟨0, by simp, by omega, c, hc, by simpa using h1, ?_⟩
          have e : sy + r + 0 = sy + r := by omega
          rw [e]
          exact h2
        · refine ⟨k + 1, by simp only [List.length_cons]; omega, by omega, c, hc,
            by simpa using h1, ?_⟩
          have e : sy + r + (k + 1) = sy + (r + 1) + k := by omega
          rw [e]
          exact h2
      · rintro ⟨k, hk, hyk, c, hc, h1, h2⟩
        rcases k with _ | k
        · left
          refine ⟨c, hc, by simpa using h1, ?_⟩
          have e : sy + r = sy + r + 0 := by omega
          rw [e]
          exact h2
        · right
          refine ⟨k, by simp only [List.length_cons] at hk; omega, by omega, c, hc,
            by simpa using h1, ?_⟩
          have e : sy + (r + 1) + k = sy + r + (k + 1) := by omega
          rw [e]
          exact h2

/-- C1: for the draw instruction, the start position is the X and Y register
values modulo 64 and 32; rows landing at or beyond row 32 are not drawn (and
nothing later is drawn either — no vertical wrap); within a drawn row each
of the 8 columns wraps modulo 64 and the touched pixel becomes
old XOR sprite bit; pixels outside the drawn region are unchanged; and the
flag register V15, reset before the loop, ends 1 exactly when some drawn
pixel had both its old value and its sprite bit equal to 1. -/
theorem C1_draw_instruction (s : ChipState) (p0 p1 n : Nat)
    (hin : s.index_pointer + n ≤ 4096)
    (hvb : ∀ p, s.video_buffer p ≤ 1) :
    ∃ s', ChipEmulator.draw p0 p1 n s = some s' ∧
      (∀ k, k < n → s.registers p1 % 32 + k < 32 → ∀ c, c < 8 →
        s'.video_buffer (64 * (s.registers p1 % 32 + k) + (s.registers p0 % 64 + c) % 64) =
          Nat.xor
            (s.video_buffer (64 * (s.registers p1 % 32 + k) + (s.registers p0 % 64 + c) % 64))
            (spriteBit (s.memory (s.index_pointer + k)) c)) ∧
      (∀ p, (∀ k, k < n → s.registers p1 % 32 + k < 32 → ∀ c, c < 8 →
          p ≠ 64 * (s.registers p1 % 32 + k) + (s.registers p0 % 64 + c) % 64) →
        s'.video_buffer p = s.video_buffer p) ∧
      s'.registers 15 ≤ 1 ∧
      (s'.registers 15 = 1 ↔ ∃ k, k < n ∧ s.registers p1 % 32 + k < 32 ∧ ∃ c, c < 8 ∧
        spriteBit (s.memory (s.index_pointer + k)) c = 1 ∧
        s.video_buffer (64 * (s.registers p1 % 32 + k) + (s.registers p0 % 64 + c) % 64) = 1) := by
  obtain ⟨s', hd, hmem, hip, hpc, hstk, hdt, hst, hkey, hdisp, hreg, hle, htouch, huntouch, hflag⟩ :=
    draw_characterized s p0 p1 n hin
  have hiff := spriteCollision_iff (s.registers p0 % 64) (s.registers p1 % 32) s.video_buffer
    ((List.range n).map fun i => s.memory (s.index_pointer + i)) 0
  refine ⟨s', hd, ?_, huntouch, ?_, ?_⟩
  · intro k hk hyk c hc
    rw [htouch k hk hyk c hc,
      toggle_eq_xor (s.video_buffer (64 * (s.registers p1 % 32 + k) +
        (s.registers p0 % 64 + c) % 64)) (spritePixel (s.memory (s.index_pointer + k)) c)
        (hvb _)]
    rfl
  · rw [hflag]
    split_ifs <;> omega
  · rw [hflag]
    constructor
    · intro h1
      cases hcb : spriteCollision (s.registers p0 % 64) (s.registers p1 % 32) s.video_buffer
          ((List.range n).map fun i => s.memory (s.index_pointer + i)) 0 with
      | false =>
        rw [hcb] at h1
        simp at h1
      | true =>
        obtain ⟨k, hk, hyk, c, hc, h1', h2'⟩ := hiff.mp hcb
        have hkn : k < n := by simpa using hk
        rw [sprite_getD (fun i => s.memory (s.index_pointer + i)) n k hkn] at h1'
        simp only [Nat.add_zero] at hyk h2'
        refine ⟨k, hkn, hyk, c, hc, ?_, ?_⟩
        · rw [spriteBit_eq_one_iff]
          simpa using h1'
        · have hb := hvb (64 * (s.registers p1 % 32 + k) + (s.registers p0 % 64 + c) % 64)
          omega
    · rintro ⟨k, hk, hyk, c, hc, hb1, hb2⟩
      have hcoll : spriteCollision (s.registers p0 % 64) (s.registers p1 % 32) s.video_buffer
          ((List.range n).map fun i => s.memory (s.index_pointer + i)) 0 = true := by
        apply hiff.mpr
        refine ⟨k, by simpa using hk, by simpa using hyk, c, hc, ?_, ?_⟩
        · rw [sprite_getD (fun i => s.memory (s.index_pointer + i)) n k hk]
          simpa using (spriteBit_eq_one_iff _ c).mp hb1
        · simp only [Nat.add_zero]
          omega
      rw [hcoll]
      simp

theorem C1_draw_instruction_witness :
    spriteState.index_pointer + 1 ≤ 4096 ∧ (∀ p, spriteState.video_buffer p ≤ 1) ∧
    (∃ s', ChipEmulator.draw 0 1 1 spriteState = some s' ∧
      (∀ k, k < 1 → spriteState.registers 1 % 32 + k < 32 → ∀ c, c < 8 →
        s'.video_buffer (64 * (spriteState.registers 1 % 32 + k) +
            (spriteState.registers 0 % 64 + c) % 64) =
          Nat.xor (spriteState.video_buffer (64 * (spriteState.registers 1 % 32 + k) +
              (spriteState.registers 0 % 64 + c) % 64))
            (spriteBit (spriteState.memory (spriteState.index_pointer + k)) c)) ∧
      (∀ p, (∀ k, k < 1 → spriteState.registers 1 % 32 + k < 32 → ∀ c, c < 8 →
          p ≠ 64 * (spriteState.registers 1 % 32 + k) +
            (spriteState.registers 0 % 64 + c) % 64) →
        s'.video_buffer p = spriteState.video_buffer p) ∧
      s'.registers 15 ≤ 1 ∧
      (s'.registers 15 = 1 ↔ ∃ k, k < 1 ∧ spriteState.registers 1 % 32 + k < 32 ∧ ∃ c, c < 8 ∧
        spriteBit (spriteState.memory (spriteState.index_pointer + k)) c = 1 ∧
        spriteState.video_buffer (64 * (spriteState.registers 1 % 32 + k) +
          (spriteState.registers 0 % 64 + c) % 64) = 1)) :=
  ⟨by decide, fun p => Nat.zero_le 1,
   C1_draw_instruction spriteState 0 1 1 (by decide) (fun p => Nat.zero_le 1)⟩

/-- Applying the source's conditional pixel update twice with the same
sprite bit restores a 1-bit pixel. -/
theorem toggle_toggle (old sp : Nat) (h : old ≤ 1) :
    (if sp ≠ 0 ∧ (if sp ≠ 0 ∧ old ≠ 0 then 0 else if sp ≠ 0 then 1 else old) ≠ 0 then 0
     else if sp ≠ 0 then 1
     else (if sp ≠ 0 ∧ old ≠ 0 then 0 else if sp ≠ 0 then 1 else old)) = old := by
  interval_cases old <;> by_cases hsp : sp = 0 <;> simp [hsp]

/-- The flag register of a successful draw is 1 exactly when some drawn
pixel had both its old value and its sprite bit equal to 1. -/
theorem draw_flag_iff (s s' : ChipState) (p0 p1 n : Nat)
    (hvb : ∀ p, s.video_buffer p ≤ 1)
    (h : ChipEmulator.draw p0 p1 n s = some s') :
    s'.registers 15 = 1 ↔ ∃ k, k < n ∧ s.registers p1 % 32 + k < 32 ∧ ∃ c, c < 8 ∧
      spriteBit (s.memory (s.index_pointer + k)) c = 1 ∧
      s.video_buffer (64 * (s.registers p1 % 32 + k) + (s.registers p0 % 64 + c) % 64) = 1 := by
  have hin := draw_some_bound s p0 p1 n s' h
  obtain ⟨t, hd, hmem, hip, hpc, hstk, hdt, hst, hkey, hdisp, hreg, hle, htouch, huntouch,
    hflag⟩ := draw_characterized s p0 p1 n hin
  have e : t = s' := by
    rw [hd] at h
    exact Option.some.inj h
  subst e
  have hiff := spriteCollision_iff (s.registers p0 % 64) (s.registers p1 % 32) s.video_buffer
    ((List.range n).map fun i => s.memory (s.index_pointer + i)) 0
  rw [hflag]
  constructor
  · intro h1
    cases hcb : spriteCollision (s.registers p0 % 64) (s.registers p1 % 32) s.video_buffer
        ((List.range n).map fun i => s.memory (s.index_pointer + i)) 0 with
    | false =>
      rw [hcb] at h1
      simp at h1
    | true =>
      obtain ⟨k, hk, hyk, c, hc, h1', h2'⟩ := hiff.mp hcb
      have hkn : k < n := by simpa using hk
      rw [sprite_getD (fun i => s.memory (s.index_pointer + i)) n k hkn] at h1'
      simp only [Nat.add_zero] at hyk h2'
      refine ⟨k, hkn, hyk, c, hc, ?_, ?_⟩
      · rw [spriteBit_eq_one_iff]
        simpa using h1'
      · have hb := hvb (64 * (s.registers p1 % 32 + k) + (s.registers p0 % 64 + c) % 64)
        omega
  · rintro ⟨k, hk, hyk, c, hc, hb1, hb2⟩
    have hcoll : spriteCollision (s.registers p0 % 64) (s.registers p1 % 32) s.video_buffer
        ((List.range n).map fun i => s.memory (s.index_pointer + i)) 0 = true := by
      apply hiff.mpr
      refine ⟨k, by simpa using hk, by simpa using hyk, c, hc, ?_, ?_⟩
      · rw [sprite_getD (fun i => s.memory (s.index_pointer + i)) n k hk]
        simpa using (spriteBit_eq_one_iff _ c).mp hb1
      · simp only [Nat.add_zero]
        omega
    rw [hcoll]
    simp

/-- C7: drawing the same sprite twice in succession, with the same register
values for X and Y, the same height, index register and sprite memory and no
other mutation in between, restores every framebuffer pixel; and the flag
register after the second draw is 1 exactly when the first draw left some
sprite pixel set within the drawn region. -/
theorem C7_double_draw (s s1 s2 : ChipState) (p0 p1 n : Nat)
    (hvb : ∀ p, s.video_buffer p ≤ 1)
    (h1 : ChipEmulator.draw p0 p1 n s = some s1)
    (h2 : ChipEmulator.draw p0 p1 n s1 = some s2)
    (hr0 : s1.registers p0 = s.registers p0)
    (hr1 : s1.registers p1 = s.registers p1) :
    (∀ p, s2.video_buffer p = s.video_buffer p) ∧
    (s2.registers 15 = 1 ↔ ∃ k, k < n ∧ s.registers p1 % 32 + k < 32 ∧ ∃ c, c < 8 ∧
      spriteBit (s.memory (s.index_pointer + k)) c = 1 ∧
      s1.video_buffer (64 * (s.registers p1 % 32 + k) +
        (s.registers p0 % 64 + c) % 64) = 1) := by
  have hin : s.index_pointer + n ≤ 4096 := draw_some_bound s p0 p1 n s1 h1
  obtain ⟨t1, hd1, hmem1, hip1, hpc1, hstk1, hdt1, hst1, hkey1, hdisp1, hreg1, hle1, htouch1,
    huntouch1, hflag1⟩ := draw_characterized s p0 p1 n hin
  have e1 : t1 = s1 := by
    rw [hd1] at h1
    exact Option.some.inj h1
  rw [e1] at hmem1 hip1 hpc1 hstk1 hdt1 hst1 hkey1 hdisp1 hreg1 hle1 htouch1 huntouch1 hflag1
  have hvb1 : ∀ p, s1.video_buffer p ≤ 1 := hle1 hvb
  have hin1 : s1.index_pointer + n ≤ 4096 := by
    rw [hip1]
    exact hin
  obtain ⟨t2, hd2, hmem2, hip2, hpc2, hstk2, hdt2, hst2, hkey2, hdisp2, hreg2, hle2, htouch2,
    huntouch2, hflag2⟩ := draw_characterized s1 p0 p1 n hin1
  have e2 : t2 = s2 := by
    rw [hd2] at h2
    exact Option.some.inj h2
  rw [e2] at hmem2 hip2 hpc2 hstk2 hdt2 hst2 hkey2 hdisp2 hreg2 hle2 htouch2 huntouch2 hflag2
  rw [hr0, hr1, hmem1, hip1] at htouch2
  rw [hr0, hr1] at huntouch2
  constructor
  · intro p
    by_cases hcase : ∃ k, k < n ∧ s.registers p1 % 32 + k < 32 ∧ ∃ c, c < 8 ∧
        p = 64 * (s.registers p1 % 32 + k) + (s.registers p0 % 64 + c) % 64
    · obtain ⟨k, hk, hyk, c, hc, hp⟩ := hcase
      subst hp
      rw [htouch2 k hk hyk c hc, htouch1 k hk hyk c hc]
      exact toggle_toggle _ _ (hvb _)
    · push_neg at hcase
      rw [huntouch2 p hcase, huntouch1 p hcase]
  · have hiff2 := draw_flag_iff s1 s2 p0 p1 n hvb1 h2
    rw [hr0, hr1, hmem1, hip1] at hiff2
    exact hiff2

theorem C7_double_draw_witness :
    (∀ p, spriteState.video_buffer p ≤ 1) ∧
    ChipEmulator.draw 0 1 1 spriteState = some spriteState1 ∧
    ChipEmulator.draw 0 1 1 spriteState1 = some spriteState2 ∧
    spriteState1.registers 0 = spriteState.registers 0 ∧
    spriteState1.registers 1 = spriteState.registers 1 ∧
    ((∀ p, spriteState2.video_buffer p = spriteState.video_buffer p) ∧
     (spriteState2.registers 15 = 1 ↔ ∃ k, k < 1 ∧ spriteState.registers 1 % 32 + k < 32 ∧
        ∃ c, c < 8 ∧ spriteBit (spriteState.memory (spriteState.index_pointer + k)) c = 1 ∧
        spriteState1.video_buffer (64 * (spriteState.registers 1 % 32 + k) +
          (spriteState.registers 0 % 64 + c) % 64) = 1)) :=
  ⟨fun p => Nat.zero_le 1, rfl, rfl, by decide, by decide,
   C7_double_draw spriteState spriteState1 spriteState2 0 1 1 (fun p => Nat.zero_le 1)
     rfl rfl (by decide) (by decide)⟩
